import Mathlib

/-!
# Verification development for `minion.go`

A shallow embedding of the lab provisioning tool: the compose-manifest
generator, the `/etc/hosts` updater, its concurrent coordinator and the
control flow of `main`.

Modelling conventions.

* A Go `string` is a byte sequence.  It is modelled as `List Char`, one `Char`
  per byte, so `len(s)` is `List.length`.  Hostnames, addresses, container ids
  and hosts-file text are ASCII, where both views coincide.
* `/etc/hosts` is an `Option Bytes`: `none` when the file cannot be opened,
  `some content` otherwise.
* Errors that only the operating system can raise on an in-memory file
  (a failing `Seek`, `Write` or `Truncate`) do not occur in the model.
* `updateHosts` splices the hostname into a regular expression.  For a
  hostname without metacharacters the pattern is matched here as the `regexp`
  package matches it.  In `updateHosts` run alone any other hostname is marked
  `patternNotLiteral`; among the goroutines of `updateHostsConcurrent` the
  answers of the `regexp` package for such a pattern (whether it compiles, and
  what it matches) are a parameter, and a pattern that does not compile is the
  panic of `regexp.MustCompile`.
-/

set_option maxRecDepth 8000

namespace Minion

/-- A Go string, one `Char` per byte. -/
abbrev Bytes := List Char

/-! ## Library functions used by `updateHosts` -/

/-- The class `\s` of Go's `regexp` syntax: `[\t\n\f\r ]`. -/
def isRegexpSpace (c : Char) : Bool :=
  c == '\t' || c == '\n' || c == Char.ofNat 12 || c == '\r' || c == Char.ofNat 32

/-- The characters that `regexp` does not read as literals
(the list of `regexp.QuoteMeta`): backslash, `.+*?()|[]` , braces, `^$`. -/
def isRegexpMeta (c : Char) : Bool :=
  c == Char.ofNat 92 || c == '.' || c == '+' || c == '*' || c == '?' || c == '(' || c == ')'
    || c == '|' || c == '[' || c == ']' || c == Char.ofNat 123 || c == Char.ofNat 125
    || c == '^' || c == '$'

/-- Whether `lit` is a prefix of `line`. -/
def hasPrefix (lit : Bytes) (line : Bytes) : Bool :=
  match lit, line with
  | [], _ => true
  | _ :: _, [] => false
  | a :: as, b :: bs => a == b && hasPrefix as bs

/-- Matching of the pattern `^\s*lit\s*` against `line`, for a literal `lit`:
some number of leading `\s` characters is skipped, then `lit` must follow.
The trailing `\s*` matches the empty string, so it never rejects. -/
def matchAnchored (lit : Bytes) : Bytes → Bool
  | [] => hasPrefix lit []
  | c :: cs => hasPrefix lit (c :: cs) || (isRegexpSpace c && matchAnchored lit cs)

/-- The test `regexp.MustCompile(fmt.Sprintf("^\\s*%s\\s*", hostname)).MatchString(line)`.
The hostname is spliced into the pattern unquoted.  When it holds no
metacharacter the pattern is the literal one and the result is `some b`;
otherwise the pattern is some other regular expression (or does not compile,
and `MustCompile` panics), which is outside the modelled fragment: `none`. -/
def lineMatches (hostname line : Bytes) : Option Bool :=
  if hostname.any isRegexpMeta then none else some (matchAnchored hostname line)

/-- `bufio.MaxScanTokenSize`: a `Scanner` fails with `ErrTooLong` on a line
of this many bytes or more. -/
def maxScanTokenSize : Nat := 65536

/-- The segments `bufio.ScanLines` cuts the input into, before the carriage
return is dropped: each newline ends a segment, and a non-empty rest after the
last newline is a segment of its own. -/
def rawLines : Bytes → List Bytes
  | [] => []
  | c :: cs =>
    if c = '\n' then [] :: rawLines cs
    else match rawLines cs with
      | [] => [[c]]
      | l :: ls => (c :: l) :: ls

/-- The helper `dropCR` of `bufio`: one trailing carriage return is removed. -/
def dropCR (l : Bytes) : Bytes :=
  if l.getLast? = some '\r' then l.dropLast else l

/-- The tokens a `bufio.Scanner` delivers for the given segments, and whether
it stopped with `ErrTooLong`: scanning ends at the first segment that does not
fit the buffer. -/
def scanTokens : List Bytes → List Bytes × Bool
  | [] => ([], false)
  | t :: ts =>
    if maxScanTokenSize ≤ t.length then ([], true)
    else ((dropCR t) :: (scanTokens ts).1, (scanTokens ts).2)

/-- The lines of a file as `scanner.Text()` yields them when no line is too long. -/
def scanLines (content : Bytes) : List Bytes :=
  (rawLines content).map dropCR

/-- `strings.Join(elems, sep)`. -/
def join (sep : Bytes) : List Bytes → Bytes
  | [] => []
  | [a] => a
  | a :: b :: rest => a ++ sep ++ join sep (b :: rest)

/-! ## The file -/

/-- A `write` of `data` through a descriptor at `offset`.  With `O_APPEND`
the kernel moves to the end of the file before every write, whatever the
descriptor's offset is; a write past the end leaves a hole of zero bytes. -/
def fileWrite (append : Bool) (offset : Nat) (content data : Bytes) : Bytes :=
  let pos := if append then content.length else offset
  content.take pos ++ List.replicate (pos - content.length) (Char.ofNat 0) ++ data
    ++ content.drop (pos + data.length)

/-- `file.Truncate(size)`: the file is cut to `size` bytes, or extended with
zero bytes when it is shorter. -/
def fileTruncate (content : Bytes) (size : Nat) : Bytes :=
  content.take size ++ List.replicate (size - content.length) (Char.ofNat 0)

/-! ## `updateHosts` -/

/-- The ways `updateHosts` fails in the model. -/
inductive UpdateError where
  /-- `os.OpenFile` failed: "opening /etc/hosts". -/
  | opening
  /-- `scanner.Err()` is `ErrTooLong`: "scanning /etc/hosts". -/
  | scanning
  /-- The hostname holds a regexp metacharacter; the run is outside the model. -/
  | patternNotLiteral
  deriving DecidableEq, Repr

/-- The loop over `scanner.Scan()`: a line is kept unless the pattern matches it. -/
def filterLines (hostname : Bytes) : List Bytes → Except UpdateError (List Bytes)
  | [] => .ok []
  | line :: rest =>
    match lineMatches hostname line with
    | none => .error .patternNotLiteral
    | some m =>
      match filterLines hostname rest with
      | .error e => .error e
      | .ok kept => .ok (if m then kept else line :: kept)

/-- `fmt.Sprintf("%s %s\n", ip, hostname)`. -/
def newEntry (ip hostname : Bytes) : Bytes :=
  ip ++ [Char.ofNat 32] ++ hostname ++ ['\n']

/-- Lines 63 to 76: the file is scanned from its start, the lines that the
pattern does not match are collected, and the new content is
`strings.Join(append(lines, newEntry), "\n")`. -/
def readPhase (ip hostname content : Bytes) : Except UpdateError Bytes :=
  match filterLines hostname (scanTokens (rawLines content)).1 with
  | .error e => .error e
  | .ok lines =>
    if (scanTokens (rawLines content)).2 then .error .scanning
    else .ok (join ['\n'] (lines ++ [newEntry ip hostname]))

/-- Lines 77 to 84: `file.Seek(0, 0)` then `file.WriteString(newFileContent)`.
The descriptor was opened with `os.O_RDWR|os.O_APPEND` (line 57), so the write
goes to the end of the file although the offset is 0. -/
def writePhase (content newFileContent : Bytes) : Bytes :=
  fileWrite true 0 content newFileContent

/-- Line 85: `file.Truncate(int64(len(newFileContent)))`. -/
def truncatePhase (content newFileContent : Bytes) : Bytes :=
  fileTruncate content newFileContent.length

/-- The function `updateHosts(ip, hostname)` run without interference: the
result is the error, or the content of the file afterwards.  A failing run
leaves the file as it was. -/
def updateHosts (ip hostname : Bytes) (hosts : Option Bytes) : Except UpdateError Bytes :=
  match hosts with
  | none => .error .opening
  | some content =>
    match readPhase ip hostname content with
    | .error e => .error e
    | .ok newFileContent =>
      .ok (truncatePhase (writePhase content newFileContent) newFileContent)

/-- The sequential composition `updateHosts(ip_0, h_0); updateHosts(ip_1, h_1); ...`
on one file, stopping at the first error. -/
def updateHostsSeq : List (Bytes × Bytes) → Bytes → Except UpdateError Bytes
  | [], content => .ok content
  | (ip, hostname) :: rest, content =>
    match updateHosts ip hostname (some content) with
    | .error e => .error e
    | .ok content1 => updateHostsSeq rest content1

/-! ## `updateHostsConcurrent`

Each goroutine runs `updateHosts` on its own descriptor of the one shared
file.  An execution is an interleaving of the goroutines' steps, and a step
is one access to the shared state (the file or the error channel).

The scanner reads the file in several `read` calls.  In the model a step of
the read phase takes one byte, so a `read` of `k` bytes is `k` steps in a row
and every way the reads of the code can interleave with the other goroutines
is a schedule of the model.  What follows a read without touching the shared
state (cutting tokens, the pattern test, building the new content) belongs to
the same step. -/

/-- What the `regexp` package makes of the pattern `^\s*hostname\s*` for a
hostname that holds a metacharacter: `none` when the pattern does not compile
(`regexp.MustCompile` panics), otherwise the test `MatchString` of the
compiled expression.  The package is not part of the program; the model
takes its answers for such patterns as given. -/
abbrev Regexp := Bytes → Option (Bytes → Bool)

/-- Line 67 inside a goroutine: the literal pattern is matched as in
`lineMatches`, any other pattern as the regexp package says.  `none` is the
panic of `regexp.MustCompile`. -/
def matchLine (re : Regexp) (hostname line : Bytes) : Option Bool :=
  match lineMatches hostname line with
  | some m => some m
  | none => (re hostname).map (fun test => test line)

/-- Lines 66 to 69 for one token of the scanner: `scanner.Text()` is the
token without its carriage return, and the line is appended to `lines`
unless the pattern matches it.  `none` is the panic of `regexp.MustCompile`. -/
def deliver (re : Regexp) (hostname : Bytes) (lines : List Bytes) (token : Bytes) :
    Option (List Bytes) :=
  match matchLine re hostname (dropCR token) with
  | none => none
  | some m => some (if m then lines else lines ++ [dropCR token])

/-- The error a goroutine sends:
`fmt.Errorf("updating /etc/hosts for %s: %w", hostname, err)`. -/
structure WrappedError where
  hostname : Bytes
  cause : UpdateError
  deriving DecidableEq, Repr

/-- Where a goroutine stands in `updateHosts`. -/
inductive Phase where
  /-- Spawned, `os.OpenFile` not yet called. -/
  | start
  /-- The file is open and the scan loop runs: `pending` is the part of the
  current line read so far, `lines` the slice `lines` of the code. -/
  | reading (pending : Bytes) (lines : List Bytes)
  /-- The scan loop is over and `newFileContent` is built. -/
  | scanned (newFileContent : Bytes)
  /-- `WriteString` has returned. -/
  | written (newFileContent : Bytes)
  /-- The call `updateHosts` has returned `err`. -/
  | returned (err : Option UpdateError)
  /-- The error, if any, is sent and `wg.Done()` has run. -/
  | done (err : Option UpdateError)
  deriving DecidableEq, Repr

/-- One goroutine of `updateHostsConcurrent`: its arguments, the bytes it has
read from the file so far (their number is the offset of its descriptor
while it reads), and its progress. -/
structure Worker where
  ip : Bytes
  hostname : Bytes
  seen : Bytes
  phase : Phase
  deriving DecidableEq, Repr

/-- What the goroutines share: the hosts file and the buffered channel `errChan`. -/
structure Shared where
  hosts : Option Bytes
  errChan : List WrappedError
  deriving DecidableEq, Repr

/-- One step of the scan loop on the file `content`.  A line that has filled
the buffer ends the scan with `ErrTooLong`.  Otherwise the next byte is read:
a newline completes a token, any other byte extends the current line, and at
the end of the file a last line without newline is a token too. -/
def stepReading (re : Regexp) (w : Worker) (pending : Bytes) (lines : List Bytes)
    (content : Bytes) : Option Worker :=
  if maxScanTokenSize ≤ pending.length then
    some { w with phase := .returned (some .scanning) }
  else
    match content[w.seen.length]? with
    | none =>
      if pending.isEmpty then
        some { w with phase := .scanned (join ['\n'] (lines ++ [newEntry w.ip w.hostname])) }
      else
        match deliver re w.hostname lines pending with
        | none => none
        | some kept =>
          some { w with phase := .scanned (join ['\n'] (kept ++ [newEntry w.ip w.hostname])) }
    | some b =>
      if b = '\n' then
        match deliver re w.hostname lines pending with
        | none => none
        | some kept => some { w with seen := w.seen ++ [b], phase := .reading [] kept }
      else some { w with seen := w.seen ++ [b], phase := .reading (pending ++ [b]) lines }

/-- One step of a goroutine; `none` when the goroutine panics. -/
def stepWorker (re : Regexp) (w : Worker) (s : Shared) : Option (Worker × Shared) :=
  match w.phase with
  | .start =>
    match s.hosts with
    | none => some ({ w with phase := .returned (some .opening) }, s)
    | some _ => some ({ w with phase := .reading [] [] }, s)
  | .reading pending lines =>
    match s.hosts with
    | none => some ({ w with phase := .returned (some .opening) }, s)
    | some content => (stepReading re w pending lines content).map (fun w1 => (w1, s))
  | .scanned c =>
    some ({ w with phase := .written c },
      { s with hosts := s.hosts.map (fun content => writePhase content c) })
  | .written c =>
    some ({ w with phase := .returned none },
      { s with hosts := s.hosts.map (fun content => truncatePhase content c) })
  | .returned none => some ({ w with phase := .done none }, s)
  | .returned (some e) =>
    some ({ w with phase := .done (some e) },
      { s with errChan := s.errChan ++ [⟨w.hostname, e⟩] })
  | .done _ => some (w, s)

/-- The goroutines, the shared state, and whether a goroutine has panicked
(the process is then dead and nothing steps any more). -/
structure System where
  workers : List Worker
  shared : Shared
  panicked : Bool
  deriving DecidableEq, Repr

/-- The scheduler lets goroutine `i` take one step. -/
def stepAt (re : Regexp) (st : System) (i : Nat) : System :=
  if st.panicked then st
  else
    match st.workers[i]? with
    | none => st
    | some w =>
      match stepWorker re w st.shared with
      | none => { st with panicked := true }
      | some r => ⟨st.workers.set i r.1, r.2, false⟩

/-- A schedule is the list of goroutine indices in the order they step. -/
def runSchedule (re : Regexp) (sched : List Nat) (st : System) : System :=
  sched.foldl (stepAt re) st

/-- A bound on the steps a goroutine still takes when it runs alone: one to
open, one per byte left in the file and one to meet its end, then the write,
the truncation, the send and `wg.Done()`. -/
def stepsToFinish (w : Worker) (s : Shared) : Nat :=
  match w.phase with
  | .start => (s.hosts.elim 0 List.length) + 5
  | .reading _ _ => ((s.hosts.elim 0 List.length) - w.seen.length) + 4
  | .scanned _ => 3
  | .written _ => 2
  | .returned _ => 1
  | .done _ => 0

/-- Goroutine `i` takes `k` steps in a row. -/
def stepMany (re : Regexp) (i : Nat) : Nat → System → System
  | 0, st => st
  | k + 1, st => stepMany re i k (stepAt re st i)

/-- Goroutine `i` runs until it is done. -/
def finishWorker (re : Regexp) (st : System) (i : Nat) : System :=
  match st.workers[i]? with
  | none => st
  | some w => stepMany re i (stepsToFinish w st.shared) st

/-- While the parent blocks in `wg.Wait()` every goroutine still running is
scheduled until it is done.  (Every complete interleaving is a schedule
`sched` of `updateHostsConcurrent`, after which nothing is left to do here.) -/
def drain (re : Regexp) (n : Nat) (st : System) : System :=
  (List.range n).foldl (finishWorker re) st

/-- The state in which `updateHostsConcurrent` has spawned its goroutines. -/
def spawn (ips hostnames : List Bytes) (hosts : Option Bytes) : System :=
  ⟨(ips.zip hostnames).map (fun p => ⟨p.1, p.2, [], .start⟩), ⟨hosts, []⟩, false⟩

/-- The goroutines of `updateHostsConcurrent(ips, hostnames)` under the
schedule `sched`: they step as `sched` says, then `wg.Wait()` lets the rest
finish. -/
def runGoroutines (re : Regexp) (ips hostnames : List Bytes) (hosts : Option Bytes)
    (sched : List Nat) : System :=
  drain re ips.length (runSchedule re sched (spawn ips hostnames hosts))

/-- What a call of `updateHostsConcurrent` leaves behind. -/
structure ConcurrentRun where
  /-- The goroutines at the time the function returns. -/
  workers : List Worker
  /-- The hosts file at that time. -/
  hosts : Option Bytes
  /-- The returned error: the first one received from `errChan`, or nil. -/
  result : Option WrappedError
  deriving DecidableEq, Repr

/-- The function `updateHostsConcurrent(ips, hostnames)` under the schedule
`sched`.  When no goroutine panics the first error in the channel is
returned.  `none` means the call does not return because the process dies in
a panic: the index-out-of-range panic of `hostnames[i]` when `hostnames` is
the shorter slice, or the panic of `regexp.MustCompile` in a goroutine. -/
def updateHostsConcurrent (re : Regexp) (ips hostnames : List Bytes) (hosts : Option Bytes)
    (sched : List Nat) : Option ConcurrentRun :=
  if hostnames.length < ips.length then none
  else if (runGoroutines re ips hostnames hosts sched).panicked then none
  else
    some ⟨(runGoroutines re ips hostnames hosts sched).workers,
      (runGoroutines re ips hostnames hosts sched).shared.hosts,
      (runGoroutines re ips hostnames hosts sched).shared.errChan.head?⟩

/-! ## Hostnames and the compose manifest -/

/-- The verb `%d` of `fmt.Sprintf` on a non-negative integer. -/
def formatInt (n : Nat) : Bytes := Nat.toDigits 10 n

/-- Lines 182 to 185 of `main`: the hostname of the container at index `i` of
the id list. -/
def hostnameFor (i : Nat) : Bytes :=
  if i > 0 then "minion-".toList ++ formatInt i else "bastion".toList

/-- The first `fmt.Sprintf` of `generateComposeContent`. -/
def bastionText (image : Bytes) : Bytes :=
  "version: \x273.8\x27\nservices:\n  bastion:\n    container_name: bastion\n    hostname: bastion\n    image: ".toList
    ++ image
    ++ "\n    ports:\n      - \x22220:22\x22\n    networks:\n      - bridge\n".toList

/-- The text one iteration of the loop in `generateComposeContent` appends. -/
def minionText (i : Nat) (image : Bytes) : Bytes :=
  "\n  ".toList ++ ("minion-".toList ++ formatInt i)
    ++ ":\n    container_name: ".toList ++ ("minion-".toList ++ formatInt i)
    ++ "\n    hostname: ".toList ++ ("minion-".toList ++ formatInt i)
    ++ "\n    image: ".toList ++ image
    ++ "\n    ports:\n      - \x22".toList ++ formatInt (220 + i)
    ++ ":22\x22\n    networks:\n      - bridge\n".toList

/-- The function `generateComposeContent(numMachines, image)`: the loop runs
for `i = 1 .. numMachines`. -/
def generateComposeContent : Nat → Bytes → Bytes
  | 0, image => bastionText image
  | n + 1, image => generateComposeContent n image ++ minionText (n + 1) image

/-- A service of the manifest, as the specification describes one. -/
structure Service where
  name : Bytes
  containerName : Bytes
  hostname : Bytes
  image : Bytes
  hostPort : Nat
  deriving DecidableEq, Repr

/-- The YAML block that declares a service under `services:`. -/
def Service.render (s : Service) : Bytes :=
  "  ".toList ++ s.name
    ++ ":\n    container_name: ".toList ++ s.containerName
    ++ "\n    hostname: ".toList ++ s.hostname
    ++ "\n    image: ".toList ++ s.image
    ++ "\n    ports:\n      - \x22".toList ++ formatInt s.hostPort
    ++ ":22\x22\n    networks:\n      - bridge\n".toList

/-- The services the specification asks of the manifest for `n` machines:
`bastion` on host port 220, then `minion-i` on host port `220 + i`. -/
def declaredServices (n : Nat) (image : Bytes) : List Service :=
  ⟨"bastion".toList, "bastion".toList, "bastion".toList, image, 220⟩ ::
    (List.range n).map (fun k =>
      ⟨"minion-".toList ++ formatInt (k + 1), "minion-".toList ++ formatInt (k + 1),
       "minion-".toList ++ formatInt (k + 1), image, 220 + (k + 1)⟩)

/-- The manifest text of a list of services: the version header, then the
blocks, separated by an empty line. -/
def renderManifest (services : List Service) : Bytes :=
  "version: \x273.8\x27\nservices:\n".toList ++ join ['\n'] (services.map Service.render)

/-! ## `execCmd` and `main` -/

/-- ASCII white space, as `strings.TrimSpace` and `strings.Fields` test it on
single bytes: tab, newline, vertical tab, form feed, carriage return, space.
(The multi-byte Unicode spaces are not recognised by the byte-wise model.) -/
def isSpace (c : Char) : Bool :=
  c == '\t' || c == '\n' || c == Char.ofNat 11 || c == Char.ofNat 12 || c == '\r'
    || c == Char.ofNat 32

/-- `strings.TrimSpace`. -/
def trimSpace (s : Bytes) : Bytes :=
  ((s.dropWhile isSpace).reverse.dropWhile isSpace).reverse

/-- The loop of `strings.Fields`; `cur` is the field being read, reversed. -/
def fieldsAux (cur : Bytes) : Bytes → List Bytes
  | [] => if cur.isEmpty then [] else [cur.reverse]
  | c :: cs =>
    if isSpace c then
      (if cur.isEmpty then fieldsAux [] cs else cur.reverse :: fieldsAux [] cs)
    else fieldsAux (c :: cur) cs

/-- `strings.Fields`: the maximal runs of non-space bytes. -/
def fields (s : Bytes) : List Bytes := fieldsAux [] s

/-- What `cmd.CombinedOutput()` gives: the output and whether `err` is nil. -/
structure CmdResult where
  output : Bytes
  succeeded : Bool
  deriving DecidableEq, Repr

/-- The function `execCmd`: the trimmed output, or an error carrying the
output (the command line and exit status of the message are left out). -/
def execCmd (r : CmdResult) : Except Bytes Bytes :=
  if r.succeeded then .ok (trimSpace r.output) else .error r.output

/-- Everything outside the program that `main` consults. -/
structure World where
  /-- Whether `os.WriteFile("docker-compose.yml", content, 0644)` succeeds. -/
  writeCompose : Bytes → Bool
  /-- The run of `docker compose up -d`. -/
  composeUp : CmdResult
  /-- The run of `docker compose ps -q`. -/
  composePs : CmdResult
  /-- The run of `docker inspect` for a container id. -/
  inspect : Bytes → CmdResult
  /-- The indices of the inspecting goroutines in the order they finish. -/
  inspectOrder : List Nat
  /-- The file `/etc/hosts` when `main` starts. -/
  hosts : Option Bytes
  /-- The answers of the `regexp` package for patterns with metacharacters. -/
  regexp : Regexp
  /-- The schedule of the goroutines of `updateHostsConcurrent`. -/
  hostsSchedule : List Nat
  /-- Whether the ssh login to the bastion succeeds. -/
  sshLogin : Bool
  /-- The run of `docker compose down`. -/
  composeDown : CmdResult

/-- What `main` does to the outside, in order. -/
inductive Event where
  /-- `os.WriteFile("docker-compose.yml", content, 0644)`. -/
  | writeFile (content : Bytes)
  /-- A command is run with these arguments. -/
  | exec (argv : List Bytes)
  /-- The call `updateHostsConcurrent(ips, hostnames)`. -/
  | hostsUpdate (ips hostnames : List Bytes)
  /-- Text written to standard output or to the log. -/
  | print (text : Bytes)
  deriving DecidableEq, Repr

/-- The reasons for `log.Fatal`. -/
inductive Fatal where
  | machinesFlag
  | writeCompose
  | startContainers (err : Bytes)
  | containerIDs (err : Bytes)
  | containerCount (expected : Int) (got : Nat)
  | inspection (id : Bytes) (err : Bytes)
  | updateHosts (err : WrappedError)
  | cleanup (err : Bytes)
  deriving DecidableEq, Repr

/-- How the process ends. -/
inductive Exit where
  | success
  | fatal (reason : Fatal)
  /-- The process dies in a panic. -/
  | panicked
  deriving DecidableEq, Repr

/-- A run of `main`: its effects, the hosts file at the end, and the exit. -/
structure Run where
  trace : List Event
  hosts : Option Bytes
  exit : Exit
  deriving DecidableEq, Repr

/-- The body of one inspecting goroutine (lines 174 to 188): the error tagged
with the id, or the address and the hostname stored at index `i`. -/
def inspectOne (w : World) (i : Nat) (id : Bytes) : Except (Bytes × Bytes) (Bytes × Bytes) :=
  match execCmd (w.inspect id) with
  | .error e => .error (id, e)
  | .ok ip => .ok (ip, hostnameFor i)

/-- The results of the goroutines for the ids from index `i` on. -/
def inspectFrom (w : World) : Nat → List Bytes → List (Except (Bytes × Bytes) (Bytes × Bytes))
  | _, [] => []
  | i, id :: rest => inspectOne w i id :: inspectFrom w (i + 1) rest

/-- The error of a result, if it is one. -/
def errorOf {ε α : Type} : Except ε α → Option ε
  | .error e => some e
  | .ok _ => none

/-- The first error received from `errChan`: the failing goroutines send in the
order they finish. -/
def firstError {ε α : Type} (order : List Nat) (results : List (Except ε α)) : Option ε :=
  match order.filterMap (fun i => (results[i]?).bind errorOf) with
  | e :: _ => some e
  | [] => results.findSome? errorOf

/-- Lines 167 to 194: the fan-out over the ids.  The slices `ips` and
`hostnames` keep the empty string where a goroutine failed; any failure is
fatal, with the first error received. -/
def discover (w : World) (ids : List Bytes) : Except (Bytes × Bytes) (List Bytes × List Bytes) :=
  match firstError w.inspectOrder (inspectFrom w 0 ids) with
  | some e => .error e
  | none =>
    .ok ((inspectFrom w 0 ids).map (fun r => match r with | .ok p => p.1 | .error _ => []),
         (inspectFrom w 0 ids).map (fun r => match r with | .ok p => p.2 | .error _ => []))

/-- The argument vector of the inspection of one container. -/
def inspectArgv (id : Bytes) : List Bytes :=
  ["docker".toList, "inspect".toList, "-f".toList,
   "\x7b\x7brange .NetworkSettings.Networks\x7d\x7d\x7b\x7b.IPAddress\x7d\x7d\x7b\x7bend\x7d\x7d".toList, id]

/-- The function `cleanupContainers`: `docker compose down`, with the message
printed on success. -/
def cleanupContainers (w : World) : List Event × Except Bytes Unit :=
  match execCmd w.composeDown with
  | .error e => ([.exec ["docker".toList, "compose".toList, "down".toList]], .error e)
  | .ok _ =>
    ([.exec ["docker".toList, "compose".toList, "down".toList],
      .print "Containers stopped and removed successfully.\n".toList], .ok ())

/-- The function `sshLoginBastion`: the ssh command is run, and the result
says whether it succeeded. -/
def sshLoginBastion (w : World) : List Event × Bool :=
  ([.exec ["ssh".toList, "-p".toList, "220".toList, "minion@localhost".toList,
      "-o".toList, "StrictHostKeyChecking=no".toList]], w.sshLogin)

/-- The connection instructions printed at the end (lines 207 to 211). -/
def instructions (numMachines : Nat) : List Event :=
  [.print "\nSSH Connection Instructions (using your SSH key):\n".toList,
   .print "ssh minion@bastion\n".toList]
    ++ (List.range numMachines).map (fun k =>
      .print ("ssh minion@minion-".toList ++ formatInt (k + 1) ++ ['\n']))

/-- The function `main` after `flag.Parse()`, with the parsed flags as
arguments.  The inspections run concurrently; the trace lists them in the
order the goroutines are spawned.  (`numMachines` is a Go `int`; a value near
its upper bound never gets past the manifest loop, so no overflow is
modelled.) -/
def main (numMachines : Int) (cleanup : Bool) (image : Bytes) (w : World) : Run :=
  if numMachines ≤ 0 then ⟨[], w.hosts, .fatal .machinesFlag⟩
  else
    let composeContent := generateComposeContent numMachines.toNat image
    let t1 : List Event := [.writeFile composeContent]
    if !(w.writeCompose composeContent) then ⟨t1, w.hosts, .fatal .writeCompose⟩
    else
      let t2 := t1 ++ [.print "docker-compose.yml generated successfully.\n".toList,
        .exec ["docker".toList, "compose".toList, "up".toList, "-d".toList]]
      match execCmd w.composeUp with
      | .error e => ⟨t2, w.hosts, .fatal (.startContainers e)⟩
      | .ok _ =>
        let t3 := t2 ++ [.print "Containers started successfully.\n".toList,
          .exec ["docker".toList, "compose".toList, "ps".toList, "-q".toList]]
        match execCmd w.composePs with
        | .error e => ⟨t3, w.hosts, .fatal (.containerIDs e)⟩
        | .ok containerIDs =>
          let ids := fields containerIDs
          if (ids.length : Int) ≠ numMachines + 1 then
            ⟨t3, w.hosts, .fatal (.containerCount (numMachines + 1) ids.length)⟩
          else
            let t4 := t3 ++ ids.map (fun id => .exec (inspectArgv id))
            match discover w ids with
            | .error e => ⟨t4, w.hosts, .fatal (.inspection e.1 e.2)⟩
            | .ok (ips, hostnames) =>
              let t5 := t4 ++ [.hostsUpdate ips hostnames]
              match updateHostsConcurrent w.regexp ips hostnames w.hosts w.hostsSchedule with
              | none =>
                ⟨t5, (runGoroutines w.regexp ips hostnames w.hosts w.hostsSchedule).shared.hosts,
                  .panicked⟩
              | some r =>
                match r.result with
                | some e => ⟨t5, r.hosts, .fatal (.updateHosts e)⟩
                | none =>
                  let t6 := t5
                    ++ [.print "\nAttempting SSH login to bastion (using password \x27minion\x27 - HIGHLY INSECURE!):\n".toList]
                    ++ (sshLoginBastion w).1
                    ++ [.print (if (sshLoginBastion w).2 then
                          "Successfully logged into bastion.\n".toList
                        else "Bastion login failed\n".toList)]
                    ++ instructions numMachines.toNat
                  if cleanup then
                    match (cleanupContainers w).2 with
                    | .error e => ⟨t6 ++ (cleanupContainers w).1, r.hosts, .fatal (.cleanup e)⟩
                    | .ok _ => ⟨t6 ++ (cleanupContainers w).1, r.hosts, .success⟩
                  else ⟨t6, r.hosts, .success⟩

/-! ## Reading decimal digits back -/

/-- The value of a decimal digit character. -/
def digitValue (c : Char) : Nat := c.toNat - 48

/-- The number a digit string denotes, continuing from the value `v`. -/
def decodeDigits (v : Nat) (ds : Bytes) : Nat :=
  ds.foldl (fun a c => a * 10 + digitValue c) v

/-! ## Progress of a goroutine -/

/-- How far a goroutine has got. -/
def Phase.rank : Phase → Nat
  | .start => 0
  | .reading _ _ => 1
  | .scanned _ => 2
  | .written _ => 3
  | .returned _ => 4
  | .done _ => 5

/-- The line `updateHosts(ip, hostname)` is meant to leave in the file. -/
def entryLine (ip hostname : Bytes) : Bytes :=
  ip ++ [Char.ofNat 32] ++ hostname

/-- A goroutine that has built the content `n` and has not failed. -/
def Phase.pastRead (n : Bytes) (p : Phase) : Prop :=
  p = .scanned n ∨ p = .written n ∨ p = .returned none ∨ p = .done none

/-- The states two goroutines reach once both have read the empty file: each
holds its own one-line content, the channel is empty, nobody has panicked, and
when both have truncated the file has the length of one of the two contents. -/
def TwoWriters (a1 h1 a2 h2 : Bytes) (st : System) : Prop :=
  ∃ (p1 p2 : Phase) (c : Bytes),
    st = ⟨[⟨a1, h1, [], p1⟩, ⟨a2, h2, [], p2⟩], ⟨some c, []⟩, false⟩
      ∧ p1.pastRead (newEntry a1 h1) ∧ p2.pastRead (newEntry a2 h2)
      ∧ (4 ≤ p1.rank → 4 ≤ p2.rank →
          c.length = (newEntry a1 h1).length ∨ c.length = (newEntry a2 h2).length)

/-! ## The scenario of two machines -/

/-- The ids `docker compose ps -q` lists in the scenario. -/
def scenarioIds : List Bytes := ["4f1c0a".toList, "9b2e77".toList, "c03d5e".toList]

/-- The addresses of the three containers. -/
def scenarioIps : List Bytes :=
  ["172.18.0.2".toList, "172.18.0.3".toList, "172.18.0.4".toList]

/-- The hostnames of the three containers. -/
def scenarioHostnames : List Bytes :=
  ["bastion".toList, "minion-1".toList, "minion-2".toList]

/-- Answers of the regexp package as far as the examples need them.  The only
hostname with a metacharacter that the examples use is `a(`; its pattern
`^\s*a(\s*` lacks a closing parenthesis, so it does not compile, and the
answer given here for it is the one of Go's package.  No other answer of this
function is ever looked at. -/
def sampleRegexp : Regexp := fun _ => none

/-- A world with three running containers and an empty hosts file, in which
every command succeeds and the goroutines run one after the other. -/
def scenarioWorld : World where
  writeCompose := fun _ => true
  composeUp := ⟨[], true⟩
  composePs := ⟨"4f1c0a\n9b2e77\nc03d5e\n".toList, true⟩
  inspect := fun id =>
    if id = "4f1c0a".toList then ⟨"172.18.0.2\n".toList, true⟩
    else if id = "9b2e77".toList then ⟨"172.18.0.3\n".toList, true⟩
    else ⟨"172.18.0.4\n".toList, true⟩
  inspectOrder := []
  hosts := some []
  regexp := sampleRegexp
  hostsSchedule := []
  sshLogin := true
  composeDown := ⟨[], true⟩

/-! # Theorems -/

/-! ## `updateHosts` run alone -/

/-- What a successful `updateHosts` leaves in the file: the old content with
the new content appended, cut to the length of the new content. -/
theorem updateHosts_ok_content (ip hostname old c : Bytes)
    (h : updateHosts ip hostname (some old) = .ok c) :
    ∃ newFileContent, readPhase ip hostname old = .ok newFileContent
      ∧ c = (old ++ newFileContent).take newFileContent.length := by
  unfold updateHosts at h
  cases hr : readPhase ip hostname old with
  | error e => simp [hr] at h
  | ok n =>
    simp only [hr, Except.ok.injEq] at h
    refine ⟨n, rfl, ?_⟩
    subst h
    have hd : List.drop (old.length + n.length) old = [] :=
      List.drop_eq_nil_of_le (Nat.le_add_right _ _)
    simp [truncatePhase, writePhase, fileWrite, fileTruncate, hd]

/-- On an empty file `updateHosts` writes exactly the new entry. -/
theorem updateHosts_empty_file (ip hostname : Bytes) :
    updateHosts ip hostname (some []) = .ok (newEntry ip hostname) := by
  simp [updateHosts, readPhase, rawLines, scanTokens, filterLines, join, truncatePhase,
    writePhase, fileWrite, fileTruncate]

/-! ## The rewrite that `Seek(0, 0)` aims at -/

/-- On a descriptor without `O_APPEND` the write at offset 0 followed by the
truncation leaves exactly the new content. -/
theorem rewrite_without_append (old newFileContent : Bytes) :
    fileTruncate (fileWrite false 0 old newFileContent) newFileContent.length
      = newFileContent := by
  simp [fileWrite, fileTruncate]

/-- After a successful `updateHosts` the file is as long as the content that
was built. -/
theorem updateHosts_ok_length (ip hostname old c : Bytes)
    (h : updateHosts ip hostname (some old) = .ok c) :
    ∃ newFileContent, readPhase ip hostname old = .ok newFileContent
      ∧ c.length = newFileContent.length := by
  obtain ⟨n, hn, hc⟩ := updateHosts_ok_content ip hostname old c h
  refine ⟨n, hn, ?_⟩
  rw [hc, List.length_take, List.length_append]
  omega

/-- C1, evaluated at a file with the single line `127.0.0.1 localhost`: the
call `updateHosts("172.18.0.2", "bastion")` succeeds and leaves the old line
twice and no line `172.18.0.2 bastion`. -/
theorem updateHosts_new_entry_missing :
    updateHosts "172.18.0.2".toList "bastion".toList (some "127.0.0.1 localhost\n".toList)
        = .ok "127.0.0.1 localhost\n127.0.0.1 localhost".toList
      ∧ scanLines "127.0.0.1 localhost\n127.0.0.1 localhost".toList
        = ["127.0.0.1 localhost".toList, "127.0.0.1 localhost".toList]
      ∧ "172.18.0.2 bastion".toList
        ∉ scanLines "127.0.0.1 localhost\n127.0.0.1 localhost".toList := by
  refine ⟨rfl, rfl, ?_⟩
  decide

/-- C2, evaluated on an empty file: after `updateHosts("172.18.0.2", "bastion")`
and then `updateHosts("172.18.0.9", "bastion")` the file holds the stale line
`172.18.0.2 bastion` twice and no line `172.18.0.9 bastion`; the pattern does
not match the stale entry, so the content the second call builds still holds
it. -/
theorem updateHosts_twice_keeps_stale_entry :
    updateHostsSeq [("172.18.0.2".toList, "bastion".toList),
        ("172.18.0.9".toList, "bastion".toList)] []
        = .ok "172.18.0.2 bastion\n172.18.0.2 bastion\n".toList
      ∧ scanLines "172.18.0.2 bastion\n172.18.0.2 bastion\n".toList
        = ["172.18.0.2 bastion".toList, "172.18.0.2 bastion".toList]
      ∧ lineMatches "bastion".toList "172.18.0.2 bastion".toList = some false
      ∧ readPhase "172.18.0.9".toList "bastion".toList "172.18.0.2 bastion\n".toList
        = .ok "172.18.0.2 bastion\n172.18.0.9 bastion\n".toList := by
  refine ⟨rfl, rfl, rfl, rfl⟩

/-- C3, evaluated: the pattern built for `minion-1` matches a line whose
leading token is `minion-10`, the scan loop drops that line, and
`updateHosts("172.18.0.3", "minion-1")` on a file holding it leaves the line cut
short. -/
theorem updateHosts_filters_longer_name :
    lineMatches "minion-1".toList "minion-10 172.18.0.9 # tenth worker".toList = some true
      ∧ filterLines "minion-1".toList
          ["minion-10 172.18.0.9 # tenth worker".toList, "172.18.0.9 minion-10".toList]
        = .ok ["172.18.0.9 minion-10".toList]
      ∧ readPhase "172.18.0.3".toList "minion-1".toList
          "minion-10 172.18.0.9 # tenth worker\n".toList
        = .ok "172.18.0.3 minion-1\n".toList
      ∧ updateHosts "172.18.0.3".toList "minion-1".toList
          (some "minion-10 172.18.0.9 # tenth worker\n".toList)
        = .ok "minion-10 172.18.0.9".toList := by
  refine ⟨rfl, rfl, rfl, rfl⟩

/-- C4, evaluated at a file without a final newline: the content that
`updateHosts("10.0.0.5", "web")` builds is the kept line, a newline and the new
entry, but the file afterwards is the old content followed by the first bytes
of that content. -/
theorem updateHosts_content_not_rewritten :
    readPhase "10.0.0.5".toList "web".toList "127.0.0.1 localhost".toList
        = .ok "127.0.0.1 localhost\n10.0.0.5 web\n".toList
      ∧ updateHosts "10.0.0.5".toList "web".toList (some "127.0.0.1 localhost".toList)
        = .ok "127.0.0.1 localhost127.0.0.1 loca".toList
      ∧ "127.0.0.1 localhost127.0.0.1 loca".toList
        ≠ "127.0.0.1 localhost\n10.0.0.5 web\n".toList := by
  refine ⟨rfl, rfl, ?_⟩
  decide

/-- C5, evaluated at the scenario of two machines on an empty hosts file:
after the three calls in order the file has three lines for `bastion` and
none for `minion-1` or `minion-2`. -/
theorem updateHosts_three_hosts_scenario :
    updateHostsSeq [("172.18.0.2".toList, hostnameFor 0), ("172.18.0.3".toList, hostnameFor 1),
        ("172.18.0.4".toList, hostnameFor 2)] []
        = .ok "172.18.0.2 bastion\n172.18.0.2 bastion\n1172.18.0.2 bastion\n17".toList
      ∧ scanLines "172.18.0.2 bastion\n172.18.0.2 bastion\n1172.18.0.2 bastion\n17".toList
        = ["172.18.0.2 bastion".toList, "172.18.0.2 bastion".toList,
           "1172.18.0.2 bastion".toList, "17".toList] := by
  refine ⟨rfl, rfl⟩

/-! ## Hostnames -/

theorem digitValue_digitChar (k : Nat) (h : k < 10) : digitValue (Nat.digitChar k) = k := by
  interval_cases k <;> rfl

theorem decodeDigits_toDigitsCore (fuel : Nat) :
    ∀ n acc, n < fuel → decodeDigits 0 (Nat.toDigitsCore 10 fuel n acc) = decodeDigits n acc := by
  induction fuel with
  | zero => intro n acc h; omega
  | succ fuel ih =>
    intro n acc h
    simp only [Nat.toDigitsCore]
    split
    · rename_i h0
      have hn : n < 10 := by omega
      simp [decodeDigits, digitValue_digitChar n hn, Nat.mod_eq_of_lt hn]
    · rename_i h0
      rw [ih (n / 10) _ (by omega)]
      simp only [decodeDigits, List.foldl_cons]
      rw [digitValue_digitChar (n % 10) (Nat.mod_lt _ (by norm_num))]
      congr 1
      omega

theorem decodeDigits_formatInt (n : Nat) : decodeDigits 0 (formatInt n) = n := by
  unfold formatInt Nat.toDigits
  rw [decodeDigits_toDigitsCore (n + 1) n [] (Nat.lt_succ_self n)]
  rfl

theorem formatInt_injective : Function.Injective formatInt := by
  intro a b h
  have := congrArg (decodeDigits 0) h
  simpa [decodeDigits_formatInt] using this

theorem hostnameFor_injective : Function.Injective hostnameFor := by
  intro a b h
  unfold hostnameFor at h
  by_cases ha : a > 0 <;> by_cases hb : b > 0
  · simp only [ha, hb, if_true] at h
    exact formatInt_injective (List.append_cancel_left h)
  · simp only [ha, hb, if_true, if_false] at h
    have h2 : 'm' :: ("inion-".toList ++ formatInt a) = 'b' :: "astion".toList := h
    injection h2 with h3 _
    exact absurd h3 (by decide)
  · simp only [ha, hb, if_true, if_false] at h
    have h2 : 'b' :: "astion".toList = 'm' :: ("inion-".toList ++ formatInt b) := h
    injection h2 with h3 _
    exact absurd h3 (by decide)
  · omega

/-- When no error is received, no goroutine failed. -/
theorem firstError_none {ε α : Type} (order : List Nat) (results : List (Except ε α))
    (h : firstError order results = none) : ∀ r ∈ results, errorOf r = none := by
  unfold firstError at h
  split at h
  · simp at h
  · exact List.findSome?_eq_none_iff.mp h

/-- The hostnames stored by goroutines that all succeeded. -/
theorem inspectFrom_hostnames (w : World) (ids : List Bytes) :
    ∀ i, (∀ r ∈ inspectFrom w i ids, errorOf r = none) →
      (inspectFrom w i ids).map (fun r => match r with | .ok p => p.2 | .error _ => [])
        = (List.range' i ids.length).map hostnameFor := by
  induction ids with
  | nil => intro i _; rfl
  | cons id rest ih =>
    intro i h
    simp only [inspectFrom, List.map_cons, List.length_cons, List.range'_succ]
    rw [ih (i + 1) (fun r hr => h r (by simp [inspectFrom, hr]))]
    have h1 := h (inspectOne w i id) (by simp [inspectFrom])
    unfold inspectOne at h1 ⊢
    cases hc : execCmd (w.inspect id) with
    | error e => simp [hc, errorOf] at h1
    | ok ip => simp

/-- C6: whenever the fan-out over the container ids succeeds, the hostnames it
assigns are determined by the positions alone: index 0 gets `bastion`, index
`k > 0` gets `minion-` followed by the decimal digits of `k`, whatever the ids
and the addresses are; the assigned hostnames are pairwise distinct. -/
theorem hostnames_by_position (w : World) (ids ips hostnames : List Bytes)
    (h : discover w ids = .ok (ips, hostnames)) :
    hostnames = (List.range ids.length).map hostnameFor
      ∧ hostnameFor 0 = "bastion".toList
      ∧ (∀ k, 0 < k → hostnameFor k = "minion-".toList ++ formatInt k)
      ∧ hostnames.Nodup := by
  have hh : hostnames = (List.range ids.length).map hostnameFor := by
    unfold discover at h
    split at h
    · simp at h
    · rename_i hnone
      simp only [Except.ok.injEq, Prod.mk.injEq] at h
      rw [← h.2, inspectFrom_hostnames w ids 0 (firstError_none _ _ hnone), List.range_eq_range']
  refine ⟨hh, rfl, ?_, ?_⟩
  · intro k hk
    simp [hostnameFor, hk]
  · rw [hh]
    exact (List.nodup_range _).map hostnameFor_injective

/-! ## The compose manifest -/

theorem join_append_singleton (sep b : Bytes) (xs : List Bytes) (h : xs ≠ []) :
    join sep (xs ++ [b]) = join sep xs ++ sep ++ b := by
  induction xs with
  | nil => exact absurd rfl h
  | cons a rest ih =>
    cases rest with
    | nil => simp [join]
    | cons c rest2 =>
      have hrec := ih (by simp)
      show join sep (a :: c :: (rest2 ++ [b])) = join sep (a :: c :: rest2) ++ sep ++ b
      rw [join, show c :: (rest2 ++ [b]) = (c :: rest2) ++ [b] from rfl, hrec, join]
      simp only [List.append_assoc]

theorem minionText_eq_render (k : Nat) (image : Bytes) :
    minionText (k + 1) image
      = ['\n'] ++ Service.render ⟨"minion-".toList ++ formatInt (k + 1),
          "minion-".toList ++ formatInt (k + 1), "minion-".toList ++ formatInt (k + 1),
          image, 220 + (k + 1)⟩ := by
  simp only [minionText, Service.render]
  have : "\n  ".toList = ['\n'] ++ "  ".toList := rfl
  rw [this]
  simp only [List.append_assoc]

theorem declaredServices_succ (n : Nat) (image : Bytes) :
    declaredServices (n + 1) image
      = declaredServices n image ++ [⟨"minion-".toList ++ formatInt (n + 1),
          "minion-".toList ++ formatInt (n + 1), "minion-".toList ++ formatInt (n + 1),
          image, 220 + (n + 1)⟩] := by
  simp [declaredServices, List.range_succ]

theorem generateComposeContent_eq_render (n : Nat) (image : Bytes) :
    generateComposeContent n image = renderManifest (declaredServices n image) := by
  induction n with
  | zero =>
    simp only [generateComposeContent, renderManifest, declaredServices, List.range_zero,
      List.map_nil, List.map_cons, join, Service.render, bastionText]
    have : "version: \x273.8\x27\nservices:\n  bastion:\n    container_name: bastion\n    hostname: bastion\n    image: ".toList
        = "version: \x273.8\x27\nservices:\n".toList ++ ("  ".toList ++ "bastion".toList
          ++ ":\n    container_name: ".toList ++ "bastion".toList
          ++ "\n    hostname: ".toList ++ "bastion".toList ++ "\n    image: ".toList) := rfl
    have h220 : formatInt 220 = "220".toList := rfl
    have hp : "\n    ports:\n      - \x22220:22\x22\n    networks:\n      - bridge\n".toList
        = "\n    ports:\n      - \x22".toList ++ "220".toList
          ++ ":22\x22\n    networks:\n      - bridge\n".toList := rfl
    rw [this, h220, hp]
    simp only [List.append_assoc]
  | succ n ih =>
    rw [generateComposeContent, ih, declaredServices_succ, renderManifest, renderManifest,
      List.map_append, List.map_cons, List.map_nil,
      join_append_singleton _ _ _ (by simp [declaredServices]), minionText_eq_render]
    simp only [List.append_assoc]

/-- C10: the manifest for `n` machines is the rendering of exactly `n + 1`
services: `bastion` on host port 220 and, for `i` from 1 to `n`, `minion-i`
(service name, container name and hostname alike) on host port `220 + i`, all
with the given image.  The host ports are pairwise distinct, the service names
are the hostnames derived by position for `n + 1` containers, and the manifest
for `n + 1` machines is the one for `n` machines with the block of
`minion-(n+1)` appended. -/
theorem generateComposeContent_services (n : Nat) (image : Bytes) :
    generateComposeContent n image = renderManifest (declaredServices n image)
      ∧ (declaredServices n image).length = n + 1
      ∧ (declaredServices n image)[0]?
          = some ⟨"bastion".toList, "bastion".toList, "bastion".toList, image, 220⟩
      ∧ (∀ i, 1 ≤ i → i ≤ n → (declaredServices n image)[i]?
          = some ⟨"minion-".toList ++ formatInt i, "minion-".toList ++ formatInt i,
              "minion-".toList ++ formatInt i, image, 220 + i⟩)
      ∧ ((declaredServices n image).map Service.hostPort).Nodup
      ∧ (declaredServices n image).map Service.name = (List.range (n + 1)).map hostnameFor
      ∧ generateComposeContent (n + 1) image
          = generateComposeContent n image ++ ['\n']
            ++ Service.render ⟨"minion-".toList ++ formatInt (n + 1),
                "minion-".toList ++ formatInt (n + 1), "minion-".toList ++ formatInt (n + 1),
                image, 220 + (n + 1)⟩ := by
  refine ⟨generateComposeContent_eq_render n image, by simp [declaredServices],
    by simp [declaredServices], ?_, ?_, ?_, ?_⟩
  · intro i h1 hn
    obtain ⟨k, rfl⟩ : ∃ k, i = k + 1 := ⟨i - 1, by omega⟩
    have hk : k < n := by omega
    simp [declaredServices, List.getElem?_map, List.getElem?_range hk]
  · have : (declaredServices n image).map Service.hostPort
        = (List.range (n + 1)).map (fun k => 220 + k) := by
      simp [declaredServices, List.range_succ_eq_map, Function.comp_def]
    rw [this]
    exact (List.nodup_range _).map (fun a b hab => by simpa using hab)
  · simp [declaredServices, List.range_succ_eq_map, Function.comp_def, hostnameFor]
  · rw [generateComposeContent, minionText_eq_render]
    simp only [List.append_assoc]

/-! ## The count check of `main` -/

/-- C8: for a machine count `n > 0`, when the number of ids in the output of
`docker compose ps -q` differs from `n + 1` the run of `main` ends with a fatal
error (the count mismatch, if the run gets as far as the listing), no
container is inspected, `updateHostsConcurrent` is not called and the hosts
file is as it was.  When the run gets to the listing and the count is
`n + 1`, every listed container is inspected. -/
theorem main_count_mismatch (n : Int) (cleanup : Bool) (image : Bytes) (w : World)
    (hn : 0 < n) :
    (((fields (trimSpace w.composePs.output)).length : Int) ≠ n + 1 →
      (∃ reason, (main n cleanup image w).exit = .fatal reason)
        ∧ (w.writeCompose (generateComposeContent n.toNat image) = true →
            w.composeUp.succeeded = true → w.composePs.succeeded = true →
            (main n cleanup image w).exit
              = .fatal (.containerCount (n + 1) (fields (trimSpace w.composePs.output)).length))
        ∧ (main n cleanup image w).hosts = w.hosts
        ∧ (∀ id, Event.exec (inspectArgv id) ∉ (main n cleanup image w).trace)
        ∧ (∀ ips hostnames, Event.hostsUpdate ips hostnames ∉ (main n cleanup image w).trace))
      ∧ (w.writeCompose (generateComposeContent n.toNat image) = true →
          w.composeUp.succeeded = true → w.composePs.succeeded = true →
          ((fields (trimSpace w.composePs.output)).length : Int) = n + 1 →
          ∀ id ∈ fields (trimSpace w.composePs.output),
            Event.exec (inspectArgv id) ∈ (main n cleanup image w).trace) := by
  have hn' : ¬ n ≤ 0 := by omega
  constructor
  · intro hcount
    unfold main
    simp only [hn', if_false]
    by_cases hw : w.writeCompose (generateComposeContent n.toNat image) = true
    · simp only [hw, Bool.not_true, Bool.false_eq_true, if_false]
      by_cases hup : w.composeUp.succeeded = true
      · simp only [execCmd, hup, if_true]
        by_cases hps : w.composePs.succeeded = true
        · simp only [hps, if_true, hcount, ne_eq, not_false_eq_true]
          simp [inspectArgv]
        · simp [hps, inspectArgv]
      · simp [execCmd, hup, inspectArgv]
    · simp [hw, inspectArgv]
  · intro hw hup hps hcount id hid
    unfold main
    simp only [hn', if_false, hw, Bool.not_true, Bool.false_eq_true, execCmd, hup, hps, if_true,
      hcount, ne_eq, not_true_eq_false]
    have hm : Event.exec (inspectArgv id) ∈ (fields (trimSpace w.composePs.output)).map
        (fun id => Event.exec (inspectArgv id)) := List.mem_map.mpr ⟨id, hid, rfl⟩
    repeat' split
    all_goals
      show _ ∈ _
      simp only [List.mem_append, hm, true_or, or_true]

/-! ## The goroutines of `updateHostsConcurrent` -/

/-- The step of a reading goroutine, spelled out. -/
theorem stepWorker_reading (re : Regexp) (w : Worker) (s : Shared) (p : Bytes)
    (ls : List Bytes) (content : Bytes) (hph : w.phase = .reading p ls)
    (hh : s.hosts = some content) :
    stepWorker re w s = (stepReading re w p ls content).map (fun w1 => (w1, s)) := by
  unfold stepWorker
  simp [hph, hh]

theorem stepWorker_done (re : Regexp) (w : Worker) (s : Shared) (r : Option UpdateError)
    (h : w.phase = .done r) : stepWorker re w s = some (w, s) := by
  unfold stepWorker
  simp [h]

/-- What a step of the scheduler can be: nothing happens, goroutine `i`
panics, or goroutine `i` takes a step of its own. -/
theorem stepAt_cases (re : Regexp) (st : System) (i : Nat) :
    stepAt re st i = st
      ∨ (∃ (w : Worker), st.panicked = false ∧ st.workers[i]? = some w
          ∧ stepWorker re w st.shared = none
          ∧ stepAt re st i = { st with panicked := true })
      ∨ ∃ (w w1 : Worker) (s1 : Shared), st.panicked = false ∧ st.workers[i]? = some w
          ∧ stepWorker re w st.shared = some (w1, s1)
          ∧ stepAt re st i = ⟨st.workers.set i w1, s1, false⟩ := by
  by_cases hp : st.panicked = true
  · exact Or.inl (by simp [stepAt, hp])
  · have hp' : st.panicked = false := by simpa using hp
    cases hw : st.workers[i]? with
    | none => exact Or.inl (by simp [stepAt, hp', hw])
    | some w =>
      cases hs : stepWorker re w st.shared with
      | none => exact Or.inr (Or.inl ⟨w, hp', rfl, hs, by simp [stepAt, hp', hw, hs]⟩)
      | some r =>
        exact Or.inr (Or.inr ⟨w, r.1, r.2, hp', rfl, hs, by simp [stepAt, hp', hw, hs]⟩)

theorem runSchedule_append (re : Regexp) (a b : List Nat) (st : System) :
    runSchedule re (a ++ b) st = runSchedule re b (runSchedule re a st) := by
  simp [runSchedule, List.foldl_append]

theorem runSchedule_cons (re : Regexp) (i : Nat) (rest : List Nat) (st : System) :
    runSchedule re (i :: rest) st = runSchedule re rest (stepAt re st i) := rfl

/-- A property kept by every step is kept by every schedule. -/
theorem runSchedule_invariant (re : Regexp) (P : System → Prop)
    (hstep : ∀ st i, P st → P (stepAt re st i)) (sched : List Nat) :
    ∀ st, P st → P (runSchedule re sched st) := by
  induction sched with
  | nil => intro st h; exact h
  | cons i rest ih => intro st h; exact ih _ (hstep st i h)

theorem stepMany_invariant (re : Regexp) (P : System → Prop)
    (hstep : ∀ st i, P st → P (stepAt re st i)) (i : Nat) (k : Nat) :
    ∀ st, P st → P (stepMany re i k st) := by
  induction k with
  | zero => intro st h; exact h
  | succ k ih => intro st h; exact ih _ (hstep st i h)

theorem finishWorker_invariant (re : Regexp) (P : System → Prop)
    (hstep : ∀ st i, P st → P (stepAt re st i)) (st : System) (i : Nat) (h : P st) :
    P (finishWorker re st i) := by
  unfold finishWorker
  split
  · exact h
  · exact stepMany_invariant re P hstep i _ st h

theorem drain_invariant (re : Regexp) (P : System → Prop)
    (hstep : ∀ st i, P st → P (stepAt re st i)) (n : Nat) :
    ∀ st, P st → P (drain re n st) := by
  intro st h
  unfold drain
  generalize List.range n = l
  induction l generalizing st with
  | nil => exact h
  | cons i rest ih => exact ih _ (finishWorker_invariant re P hstep st i h)

theorem stepAt_length (re : Regexp) (st : System) (i : Nat) :
    (stepAt re st i).workers.length = st.workers.length := by
  rcases stepAt_cases re st i with h | ⟨_, _, _, _, h⟩ | ⟨w, w1, s1, _, _, _, h⟩ <;> rw [h]
  simp

/-- A goroutine that is done stays as it is. -/
theorem stepAt_done (re : Regexp) (st : System) (i k : Nat) (w : Worker)
    (r : Option UpdateError) (hw : st.workers[k]? = some w) (hd : w.phase = .done r) :
    (stepAt re st i).workers[k]? = some w := by
  rcases stepAt_cases re st i with h | ⟨_, _, _, _, h⟩ | ⟨w0, w1, s1, _, hw0, hs, h⟩ <;> rw [h]
  · exact hw
  · exact hw
  · simp only [List.getElem?_set]
    by_cases hk : i = k
    · subst hk
      rw [hw] at hw0
      have : w0 = w := by simpa using hw0.symm
      subst this
      rw [stepWorker_done re w0 st.shared r hd] at hs
      have hlt : i < st.workers.length := (List.getElem?_eq_some_iff.mp hw).1
      simp only [Option.some.injEq, Prod.mk.injEq] at hs
      simp [hlt, hs.1]
    · simp [hk, hw]

/-- Once the process has panicked it stays so. -/
theorem stepAt_panicked (re : Regexp) (st : System) (i : Nat) (h : st.panicked = true) :
    stepAt re st i = st := by
  simp [stepAt, h]

theorem stepMany_panicked (re : Regexp) (i k : Nat) :
    ∀ st : System, st.panicked = true → stepMany re i k st = st := by
  induction k with
  | zero => intro st _; rfl
  | succ k ih => intro st h; rw [stepMany, stepAt_panicked re st i h]; exact ih st h

theorem stepReading_measure (re : Regexp) (w w1 : Worker) (p : Bytes) (ls : List Bytes)
    (content : Bytes) (s : Shared) (hph : w.phase = .reading p ls)
    (hh : s.hosts = some content) (h : stepReading re w p ls content = some w1) :
    stepsToFinish w1 s < stepsToFinish w s := by
  unfold stepReading at h
  split at h
  · simp only [Option.some.injEq] at h; subst h
    simp [stepsToFinish, hph]
  · cases hb : content[w.seen.length]? with
    | none =>
      simp only [hb] at h
      split at h
      · simp only [Option.some.injEq] at h; subst h
        simp [stepsToFinish, hph]
      · cases hd : deliver re w.hostname ls p with
        | none => simp [hd] at h
        | some kept =>
          simp only [hd, Option.some.injEq] at h; subst h
          simp [stepsToFinish, hph]
    | some b =>
      have hlt : w.seen.length < content.length := (List.getElem?_eq_some_iff.mp hb).1
      simp only [hb] at h
      split at h
      · cases hd : deliver re w.hostname ls p with
        | none => simp [hd] at h
        | some kept =>
          simp only [hd, Option.some.injEq] at h; subst h
          simp [stepsToFinish, hph, hh]
          omega
      · simp only [Option.some.injEq] at h; subst h
        simp [stepsToFinish, hph, hh]
        omega

/-- A step of its own brings a goroutine nearer to its end. -/
theorem stepWorker_measure (re : Regexp) (w w1 : Worker) (s s1 : Shared)
    (h : stepWorker re w s = some (w1, s1)) :
    (∃ r, w.phase = .done r) ∨ stepsToFinish w1 s1 < stepsToFinish w s := by
  cases hph : w.phase with
  | done r => exact Or.inl ⟨r, rfl⟩
  | reading p ls =>
    right
    cases hh : s.hosts with
    | none =>
      simp only [stepWorker, hph, hh, Option.some.injEq, Prod.mk.injEq] at h
      rw [← h.1, ← h.2]
      simp [stepsToFinish, hph]
    | some content =>
      rw [stepWorker_reading re w s p ls content hph hh] at h
      cases hr : stepReading re w p ls content with
      | none => simp [hr] at h
      | some w2 =>
        simp only [hr, Option.map_some', Option.some.injEq, Prod.mk.injEq] at h
        rw [← h.1, ← h.2]
        exact stepReading_measure re w w2 p ls content s hph hh hr
  | start =>
    right
    cases hh : s.hosts <;>
      (simp only [stepWorker, hph, hh, Option.some.injEq, Prod.mk.injEq] at h
       rw [← h.1, ← h.2]
       simp [stepsToFinish, hph, hh])
    omega
  | returned r =>
    right
    cases r <;>
      (simp only [stepWorker, hph, Option.some.injEq, Prod.mk.injEq] at h
       rw [← h.1, ← h.2]
       simp [stepsToFinish, hph])
  | scanned c =>
    right
    simp only [stepWorker, hph, Option.some.injEq, Prod.mk.injEq] at h
    rw [← h.1, ← h.2]
    simp [stepsToFinish, hph]
  | written c =>
    right
    simp only [stepWorker, hph, Option.some.injEq, Prod.mk.injEq] at h
    rw [← h.1, ← h.2]
    simp [stepsToFinish, hph]

theorem stepsToFinish_zero (w : Worker) (s : Shared) (h : stepsToFinish w s = 0) :
    ∃ r, w.phase = .done r := by
  unfold stepsToFinish at h
  split at h
  all_goals first
    | omega
    | exact ⟨_, by assumption⟩

/-- A goroutine that takes as many steps as its bound says is done, unless
the process has panicked. -/
theorem stepMany_done (re : Regexp) (i : Nat) (k : Nat) :
    ∀ (st : System) (w : Worker), st.workers[i]? = some w → stepsToFinish w st.shared ≤ k →
      (stepMany re i k st).panicked = true
        ∨ ∃ (w1 : Worker) (r : Option UpdateError),
            (stepMany re i k st).workers[i]? = some w1 ∧ w1.phase = .done r := by
  induction k with
  | zero =>
    intro st w hw hk
    obtain ⟨r, hr⟩ := stepsToFinish_zero w st.shared (by omega)
    exact Or.inr ⟨w, r, hw, hr⟩
  | succ k ih =>
    intro st w hw hk
    rw [stepMany]
    rcases stepAt_cases re st i with h | ⟨_, _, _, _, h⟩ | ⟨w0, w1, s1, _, hw0, hs, h⟩
    · by_cases hp : st.panicked = true
      · left; rw [h, stepMany_panicked re i k st hp]; exact hp
      · -- nothing happened although the goroutine exists: it can only be done already
        have hp' : st.panicked = false := by simpa using hp
        have hstep : stepAt re st i = st := h
        unfold stepAt at hstep
        simp only [hp', Bool.false_eq_true, if_false, hw] at hstep
        cases hs : stepWorker re w st.shared with
        | none =>
          simp only [hs] at hstep
          have := congrArg System.panicked hstep
          simp [hp'] at this
        | some r =>
          rcases stepWorker_measure re w r.1 st.shared r.2 hs with ⟨r0, hr0⟩ | hlt
          · rw [h]
            obtain ⟨w2, r2, h2, h3⟩ : ∃ (w2 : Worker) (r2 : Option UpdateError),
                (stepMany re i k st).workers[i]? = some w2 ∧ w2.phase = .done r2 :=
              ⟨w, r0, stepMany_invariant re (fun s => s.workers[i]? = some w)
                (fun s j hs' => stepAt_done re s j i w r0 hs' hr0) i k st hw, hr0⟩
            exact Or.inr ⟨w2, r2, h2, h3⟩
          · simp only [hs] at hstep
            have hsh := congrArg System.shared hstep
            have hwk := congrArg System.workers hstep
            simp only at hsh hwk
            have hlen : i < st.workers.length := (List.getElem?_eq_some_iff.mp hw).1
            have : (st.workers.set i r.1)[i]? = some r.1 := by simp [hlen]
            rw [hwk, hw] at this
            have hw' : w = r.1 := by simpa using this
            rw [← hw', hsh] at hlt
            omega
    · left
      rw [h, stepMany_panicked re i k _ rfl]
    · rw [hw] at hw0
      have : w0 = w := by simpa using hw0.symm
      subst this
      rw [h]
      have hlen : i < st.workers.length := (List.getElem?_eq_some_iff.mp hw).1
      have hnew : (⟨st.workers.set i w1, s1, false⟩ : System).workers[i]? = some w1 := by
        simp [hlen]
      rcases stepWorker_measure re w0 w1 st.shared s1 hs with ⟨r0, hr0⟩ | hlt
      · rw [stepWorker_done re w0 st.shared r0 hr0] at hs
        simp only [Option.some.injEq, Prod.mk.injEq] at hs
        obtain ⟨h1, h2⟩ := hs
        subst h1
        exact Or.inr ⟨w0, r0, stepMany_invariant re (fun s => s.workers[i]? = some w0)
          (fun s j hs' => stepAt_done re s j i w0 r0 hs' hr0) i k _ hnew, hr0⟩
      · exact ih _ w1 hnew (by simp only; omega)

theorem finishWorker_done (re : Regexp) (st : System) (i : Nat) (hi : i < st.workers.length) :
    (finishWorker re st i).panicked = true
      ∨ ∃ (w1 : Worker) (r : Option UpdateError),
          (finishWorker re st i).workers[i]? = some w1 ∧ w1.phase = .done r := by
  unfold finishWorker
  rw [List.getElem?_eq_getElem hi]
  exact stepMany_done re i _ st _ (List.getElem?_eq_getElem hi) (Nat.le_refl _)

theorem finishWorker_length (re : Regexp) (st : System) (i : Nat) :
    (finishWorker re st i).workers.length = st.workers.length :=
  finishWorker_invariant re (fun s => s.workers.length = st.workers.length)
    (fun s j h => (stepAt_length re s j).trans h) st i rfl

theorem finishWorker_keeps_panicked (re : Regexp) (st : System) (i : Nat)
    (h : st.panicked = true) : (finishWorker re st i).panicked = true :=
  finishWorker_invariant re (fun s => s.panicked = true)
    (fun s j hs => by rw [stepAt_panicked re s j hs]; exact hs) st i h

theorem finishWorker_keeps_done (re : Regexp) (st : System) (i k : Nat) (w : Worker)
    (r : Option UpdateError) (hw : st.workers[k]? = some w) (hd : w.phase = .done r) :
    (finishWorker re st i).workers[k]? = some w :=
  finishWorker_invariant re (fun s => s.workers[k]? = some w)
    (fun s j hs => stepAt_done re s j k w r hs hd) st i hw

theorem drain_succ (re : Regexp) (n : Nat) (st : System) :
    drain re (n + 1) st = finishWorker re (drain re n st) n := by
  simp [drain, List.range_succ, List.foldl_append]

theorem drain_length (re : Regexp) (n : Nat) (st : System) :
    (drain re n st).workers.length = st.workers.length :=
  drain_invariant re (fun s => s.workers.length = st.workers.length)
    (fun s j h => (stepAt_length re s j).trans h) n st rfl

/-- When `wg.Wait()` returns every goroutine is done, unless the process has
panicked. -/
theorem drain_all_done (re : Regexp) (n : Nat) (st : System) :
    (drain re n st).panicked = true
      ∨ ∀ k, k < n → k < st.workers.length →
          ∃ (w : Worker) (r : Option UpdateError),
            (drain re n st).workers[k]? = some w ∧ w.phase = .done r := by
  induction n with
  | zero => right; intro k hk; omega
  | succ n ih =>
    rw [drain_succ]
    rcases ih with hp | hall
    · exact Or.inl (finishWorker_keeps_panicked re _ n hp)
    · by_cases hn : n < st.workers.length
      · rcases finishWorker_done re (drain re n st) n (by rw [drain_length]; exact hn) with
          hp | ⟨w1, r1, hw1, hr1⟩
        · exact Or.inl hp
        · right
          intro k hk hlen
          by_cases hkn : k < n
          · obtain ⟨w, r, hw, hr⟩ := hall k hkn hlen
            exact ⟨w, r, finishWorker_keeps_done re _ n k w r hw hr, hr⟩
          · have : k = n := by omega
            subst this
            exact ⟨w1, r1, hw1, hr1⟩
      · right
        intro k hk hlen
        have hkn : k < n := by omega
        obtain ⟨w, r, hw, hr⟩ := hall k hkn hlen
        exact ⟨w, r, finishWorker_keeps_done re _ n k w r hw hr, hr⟩

theorem spawn_length (ips hostnames : List Bytes) (hosts : Option Bytes)
    (hlen : ips.length = hostnames.length) :
    (spawn ips hostnames hosts).workers.length = ips.length := by
  simp [spawn, hlen]

theorem runGoroutines_all_done (re : Regexp) (ips hostnames : List Bytes)
    (hosts : Option Bytes) (sched : List Nat) (hlen : ips.length = hostnames.length)
    (hp : (runGoroutines re ips hostnames hosts sched).panicked = false) :
    ∀ k, k < ips.length →
      ∃ (w : Worker) (r : Option UpdateError),
        (runGoroutines re ips hostnames hosts sched).workers[k]? = some w
          ∧ w.phase = .done r := by
  intro k hk
  rcases drain_all_done re ips.length (runSchedule re sched (spawn ips hostnames hosts)) with
    h | h
  · rw [runGoroutines, h] at hp; exact absurd hp (by simp)
  · refine h k hk ?_
    have := runSchedule_invariant re
      (fun s => s.workers.length = (spawn ips hostnames hosts).workers.length)
      (fun s j h => (stepAt_length re s j).trans h) sched _ rfl
    rw [this, spawn_length ips hostnames hosts hlen]
    exact hk

theorem fileTruncate_length (c : Bytes) (n : Nat) : (fileTruncate c n).length = n := by
  simp [fileTruncate]
  omega

/-- On an empty file a goroutine is through with reading after its second
step, whatever the other goroutine has done of its own reading. -/
theorem reads_done (re : Regexp) (a1 h1 a2 h2 : Bytes) (pre : List Nat)
    (hpre : pre.Perm [0, 0, 1, 1]) :
    runSchedule re pre (spawn [a1, a2] [h1, h2] (some []))
      = ⟨[⟨a1, h1, [], .scanned (newEntry a1 h1)⟩, ⟨a2, h2, [], .scanned (newEntry a2 h2)⟩],
          ⟨some [], []⟩, false⟩ := by
  have hlen : pre.length = 4 := by simpa using hpre.length_eq
  obtain ⟨a, b, c, d, rfl⟩ : ∃ a b c d, pre = [a, b, c, d] := by
    match pre, hlen with
    | [a, b, c, d], _ => exact ⟨a, b, c, d, rfl⟩
  have hmem : ∀ x ∈ [a, b, c, d], x = 0 ∨ x = 1 := by
    intro x hx
    have := hpre.mem_iff.mp hx
    simpa using this
  have hc := hpre.count_eq 0
  rcases hmem a (by simp) with rfl | rfl <;> rcases hmem b (by simp) with rfl | rfl <;>
    rcases hmem c (by simp) with rfl | rfl <;> rcases hmem d (by simp) with rfl | rfl <;>
    first
    | (exfalso; revert hc; decide)
    | simp [runSchedule, spawn, stepAt, stepWorker, stepReading, maxScanTokenSize, join]

theorem stepAt_twoWriters (re : Regexp) (a1 h1 a2 h2 : Bytes) (st : System) (i : Nat)
    (h : TwoWriters a1 h1 a2 h2 st) : TwoWriters a1 h1 a2 h2 (stepAt re st i) := by
  obtain ⟨p1, p2, c, rfl, hp1, hp2, hlen⟩ := h
  match i with
  | 0 =>
    rcases hp1 with rfl | rfl | rfl | rfl
    · exact ⟨.written _, p2, writePhase c (newEntry a1 h1), by simp [stepAt, stepWorker],
        Or.inr (Or.inl rfl), hp2, by simp [Phase.rank]⟩
    · exact ⟨.returned none, p2, truncatePhase c (newEntry a1 h1), by simp [stepAt, stepWorker],
        Or.inr (Or.inr (Or.inl rfl)), hp2,
        fun _ _ => Or.inl (fileTruncate_length _ _)⟩
    · exact ⟨.done none, p2, c, by simp [stepAt, stepWorker],
        Or.inr (Or.inr (Or.inr rfl)), hp2, fun _ h2 => hlen (by simp [Phase.rank]) h2⟩
    · exact ⟨.done none, p2, c, by simp [stepAt, stepWorker],
        Or.inr (Or.inr (Or.inr rfl)), hp2, hlen⟩
  | 1 =>
    rcases hp2 with rfl | rfl | rfl | rfl
    · exact ⟨p1, .written _, writePhase c (newEntry a2 h2), by simp [stepAt, stepWorker],
        hp1, Or.inr (Or.inl rfl), by simp [Phase.rank]⟩
    · exact ⟨p1, .returned none, truncatePhase c (newEntry a2 h2), by simp [stepAt, stepWorker],
        hp1, Or.inr (Or.inr (Or.inl rfl)),
        fun _ _ => Or.inr (fileTruncate_length _ _)⟩
    · exact ⟨p1, .done none, c, by simp [stepAt, stepWorker],
        hp1, Or.inr (Or.inr (Or.inr rfl)), fun h1 _ => hlen h1 (by simp [Phase.rank])⟩
    · exact ⟨p1, .done none, c, by simp [stepAt, stepWorker],
        hp1, Or.inr (Or.inr (Or.inr rfl)), hlen⟩
  | k + 2 =>
    exact ⟨p1, p2, c, by simp [stepAt], hp1, hp2, hlen⟩

theorem rawLines_total_length (c : Bytes) :
    ((rawLines c).map (fun l => l.length + 1)).sum ≤ c.length + 1 := by
  induction c with
  | nil => simp [rawLines]
  | cons x cs ih =>
    unfold rawLines
    split
    · simp only [List.map_cons, List.sum_cons, List.length_nil, List.length_cons]
      omega
    · cases hr : rawLines cs with
      | nil => simp
      | cons l ls =>
        rw [hr] at ih
        simp only [List.map_cons, List.sum_cons, List.length_cons] at ih ⊢
        omega

theorem dropCR_length_le (l : Bytes) : (dropCR l).length ≤ l.length := by
  unfold dropCR
  split <;> simp

theorem scanLines_total_length (c : Bytes) :
    ((scanLines c).map (fun l => l.length + 1)).sum ≤ c.length + 1 := by
  refine le_trans ?_ (rawLines_total_length c)
  unfold scanLines
  generalize rawLines c = ls
  induction ls with
  | nil => simp
  | cons l ls ih =>
    simp only [List.map_cons, List.sum_cons] at ih ⊢
    have := dropCR_length_le l
    omega

/-- Two lines of a file, at different places, fit into it with a separator. -/
theorem two_lines_length (c x y : Bytes) (h : [x, y].Sublist (scanLines c)) :
    x.length + y.length + 1 ≤ c.length := by
  have h1 := (h.map (fun l => l.length + 1)).sum_le_sum (fun a _ => Nat.zero_le a)
  have h2 := scanLines_total_length c
  simp only [List.map_cons, List.map_nil, List.sum_cons, List.sum_nil] at h1
  omega

theorem sublist_pair_of_mem {α : Type} (a b : α) (hab : a ≠ b) (l : List α)
    (ha : a ∈ l) (hb : b ∈ l) : [a, b].Sublist l ∨ [b, a].Sublist l := by
  induction l with
  | nil => simp at ha
  | cons x xs ih =>
    rcases List.mem_cons.mp ha with rfl | ha'
    · rcases List.mem_cons.mp hb with hba | hb'
      · exact absurd hba.symm hab
      · exact Or.inl (List.Sublist.cons₂ _ (List.singleton_sublist.mpr hb'))
    · rcases List.mem_cons.mp hb with rfl | hb'
      · exact Or.inr (List.Sublist.cons₂ _ (List.singleton_sublist.mpr ha'))
      · rcases ih ha' hb' with h | h
        · exact Or.inl (h.cons _)
        · exact Or.inr (h.cons _)

theorem suffix_after_last_blank (s : Char) :
    ∀ (x y p q : Bytes), s ∉ x → s ∉ y → x ++ s :: p = y ++ s :: q → x = y := by
  intro x
  induction x with
  | nil =>
    intro y p q _ hy h
    cases y with
    | nil => rfl
    | cons b ys =>
      simp only [List.nil_append, List.cons_append, List.cons.injEq] at h
      exact absurd (h.1 ▸ List.mem_cons_self _ _) hy
  | cons a xs ih =>
    intro y p q hx hy h
    cases y with
    | nil =>
      simp only [List.nil_append, List.cons_append, List.cons.injEq] at h
      exact absurd (h.1 ▸ List.mem_cons_self _ _) hx
    | cons b ys =>
      simp only [List.cons_append, List.cons.injEq] at h
      rw [h.1, ih ys p q (fun hm => hx (List.mem_cons_of_mem _ hm))
        (fun hm => hy (List.mem_cons_of_mem _ hm)) h.2]

theorem entryLine_hostname (a1 h1 a2 h2 : Bytes) (hb1 : Char.ofNat 32 ∉ h1)
    (hb2 : Char.ofNat 32 ∉ h2) (h : entryLine a1 h1 = entryLine a2 h2) : h1 = h2 := by
  have hr := congrArg List.reverse h
  simp only [entryLine, List.reverse_append, List.reverse_cons, List.reverse_nil,
    List.nil_append, List.append_assoc, List.singleton_append] at hr
  have := suffix_after_last_blank (Char.ofNat 32) h1.reverse h2.reverse a1.reverse a2.reverse
    (by simpa using hb1) (by simpa using hb2) hr
  simpa using this

/-- C9: two invocations for different hostnames on an empty hosts file, under
any schedule in which both finish reading before either writes.  Both return
nil, and the final file never holds the two entries as two lines, in either
order; for hostnames without blanks it does not hold both entries at all. -/
theorem lost_update (re : Regexp) (a1 h1 a2 h2 : Bytes) (hne : h1 ≠ h2) (pre rest : List Nat)
    (hpre : pre.Perm [0, 0, 1, 1]) :
    ∃ (run : ConcurrentRun) (c : Bytes),
      updateHostsConcurrent re [a1, a2] [h1, h2] (some []) (pre ++ rest) = some run
        ∧ run.result = none ∧ run.hosts = some c
        ∧ ¬ [entryLine a1 h1, entryLine a2 h2].Sublist (scanLines c)
        ∧ ¬ [entryLine a2 h2, entryLine a1 h1].Sublist (scanLines c)
        ∧ (Char.ofNat 32 ∉ h1 → Char.ofNat 32 ∉ h2 →
            ¬ (entryLine a1 h1 ∈ scanLines c ∧ entryLine a2 h2 ∈ scanLines c)) := by
  have hstart : TwoWriters a1 h1 a2 h2
      (runSchedule re pre (spawn [a1, a2] [h1, h2] (some []))) := by
    rw [reads_done re a1 h1 a2 h2 pre hpre]
    exact ⟨_, _, [], rfl, Or.inl rfl, Or.inl rfl, by simp [Phase.rank]⟩
  have hinv : TwoWriters a1 h1 a2 h2
      (runGoroutines re [a1, a2] [h1, h2] (some []) (pre ++ rest)) := by
    rw [runGoroutines, runSchedule_append]
    exact drain_invariant re _ (stepAt_twoWriters re a1 h1 a2 h2) _ _
      (runSchedule_invariant re _ (stepAt_twoWriters re a1 h1 a2 h2) rest _ hstart)
  obtain ⟨p1, p2, c, hfin, -, -, hlen⟩ := hinv
  have hp : (runGoroutines re [a1, a2] [h1, h2] (some []) (pre ++ rest)).panicked = false := by
    rw [hfin]
  have hd0 := runGoroutines_all_done re [a1, a2] [h1, h2] (some []) (pre ++ rest) rfl hp 0
    (by simp)
  have hd1 := runGoroutines_all_done re [a1, a2] [h1, h2] (some []) (pre ++ rest) rfl hp 1
    (by simp)
  rw [hfin] at hd0 hd1
  have hr1 : 4 ≤ p1.rank := by
    obtain ⟨w, r, hw, hp⟩ := hd0
    have : w = ⟨a1, h1, [], p1⟩ := by simpa using hw.symm
    subst this
    simp only at hp
    rw [hp]; simp [Phase.rank]
  have hr2 : 4 ≤ p2.rank := by
    obtain ⟨w, r, hw, hp⟩ := hd1
    have : w = ⟨a2, h2, [], p2⟩ := by simpa using hw.symm
    subst this
    simp only at hp
    rw [hp]; simp [Phase.rank]
  have hc := hlen hr1 hr2
  have hl1 : (newEntry a1 h1).length = (entryLine a1 h1).length + 1 := by
    simp [newEntry, entryLine]; omega
  have hl2 : (newEntry a2 h2).length = (entryLine a2 h2).length + 1 := by
    simp [newEntry, entryLine]; omega
  have hpos1 : 1 ≤ (entryLine a1 h1).length := by simp [entryLine]; omega
  have hpos2 : 1 ≤ (entryLine a2 h2).length := by simp [entryLine]; omega
  have hno12 : ¬ [entryLine a1 h1, entryLine a2 h2].Sublist (scanLines c) := by
    intro hs
    have := two_lines_length c _ _ hs
    omega
  have hno21 : ¬ [entryLine a2 h2, entryLine a1 h1].Sublist (scanLines c) := by
    intro hs
    have := two_lines_length c _ _ hs
    omega
  have hcall : updateHostsConcurrent re [a1, a2] [h1, h2] (some []) (pre ++ rest)
      = some ⟨[⟨a1, h1, [], p1⟩, ⟨a2, h2, [], p2⟩], some c, none⟩ := by
    simp only [updateHostsConcurrent, List.length_cons, List.length_nil, lt_self_iff_false,
      if_false, hfin, Bool.false_eq_true]
    rfl
  refine ⟨_, c, hcall, rfl, rfl, hno12, hno21, ?_⟩
  · intro hb1 hb2 hboth
    have hdiff : entryLine a1 h1 ≠ entryLine a2 h2 :=
      fun he => hne (entryLine_hostname a1 h1 a2 h2 hb1 hb2 he)
    rcases sublist_pair_of_mem _ _ hdiff _ hboth.1 hboth.2 with h | h
    · exact hno12 h
    · exact hno21 h

/-- The race on the two-container example: both calls succeed and the entry of
`minion-1` is lost. -/
theorem race_example :
    updateHostsConcurrent sampleRegexp ["172.18.0.2".toList, "172.18.0.3".toList]
        ["bastion".toList, "minion-1".toList] (some []) [0, 1, 0, 1, 0, 0, 1, 1]
      = some ⟨[⟨"172.18.0.2".toList, "bastion".toList, [], .done none⟩,
               ⟨"172.18.0.3".toList, "minion-1".toList, [], .done none⟩],
              some "172.18.0.2 bastion\n1".toList, none⟩ := by
  rfl

/-! ## Instances at the scenario -/

theorem hostnames_by_position_witness :
    discover scenarioWorld scenarioIds = .ok (scenarioIps, scenarioHostnames)
      ∧ (scenarioHostnames = (List.range scenarioIds.length).map hostnameFor
        ∧ hostnameFor 0 = "bastion".toList
        ∧ (∀ k, 0 < k → hostnameFor k = "minion-".toList ++ formatInt k)
        ∧ scenarioHostnames.Nodup) :=
  ⟨rfl, hostnames_by_position scenarioWorld scenarioIds scenarioIps scenarioHostnames rfl⟩

theorem main_count_mismatch_witness :
    (0 : Int) < 3
      ∧ (main 3 true "schooleon/minion".toList scenarioWorld).exit
          = .fatal (.containerCount 4 3)
      ∧ (main 3 true "schooleon/minion".toList scenarioWorld).hosts = scenarioWorld.hosts
      ∧ (∀ id, Event.exec (inspectArgv id)
          ∉ (main 3 true "schooleon/minion".toList scenarioWorld).trace)
      ∧ (∀ ips hostnames, Event.hostsUpdate ips hostnames
          ∉ (main 3 true "schooleon/minion".toList scenarioWorld).trace) :=
  have h := (main_count_mismatch 3 true "schooleon/minion".toList scenarioWorld
    (by decide)).1 (by decide)
  ⟨by decide, h.2.1 rfl rfl rfl, h.2.2.1, h.2.2.2.1, h.2.2.2.2⟩

theorem lost_update_witness :
    "bastion".toList ≠ "minion-1".toList
      ∧ [0, 1, 1, 0].Perm [0, 0, 1, 1]
      ∧ ∃ (run : ConcurrentRun) (c : Bytes),
        updateHostsConcurrent sampleRegexp ["172.18.0.2".toList, "172.18.0.3".toList]
            ["bastion".toList, "minion-1".toList] (some []) ([0, 1, 1, 0] ++ [1, 0, 0, 1])
          = some run
        ∧ run.result = none ∧ run.hosts = some c
        ∧ ¬ [entryLine "172.18.0.2".toList "bastion".toList,
              entryLine "172.18.0.3".toList "minion-1".toList].Sublist (scanLines c)
        ∧ ¬ [entryLine "172.18.0.3".toList "minion-1".toList,
              entryLine "172.18.0.2".toList "bastion".toList].Sublist (scanLines c)
        ∧ (Char.ofNat 32 ∉ "bastion".toList → Char.ofNat 32 ∉ "minion-1".toList →
            ¬ (entryLine "172.18.0.2".toList "bastion".toList ∈ scanLines c
              ∧ entryLine "172.18.0.3".toList "minion-1".toList ∈ scanLines c)) :=
  ⟨by decide, by decide,
    lost_update sampleRegexp "172.18.0.2".toList "bastion".toList "172.18.0.3".toList
      "minion-1".toList (by decide) [0, 1, 1, 0] [1, 0, 0, 1] (by decide)⟩

end Minion
